import Mathlib

set_option maxHeartbeats 1000000

/-!
Verification of the dictionary aggregation and normalization layer of the
kotoba application: the canonical entry model, the entry serialization codec
(`serializeEntries` / `unserializeEntries` in `src/dict/dict.ts`), the
Yomichan-style structured-format importer (`importDict`), and the two
external-source adapters (`EntryFromJisho`, `EntryFromJapanesePod`).

Modelling conventions:
* JavaScript runtime values that escape the TypeScript types (property access
  on arrays, `undefined`, truthiness) are modelled by the deep value type
  `JVal`; a thrown `TypeError` is modelled as `Except.error ()`.
* String-keyed JavaScript objects are modelled as finite association lists
  (prototype-inherited keys such as `"constructor"` are not modelled).
* JavaScript numbers are modelled as `Int`; all numbers occurring in the
  claims (scores, sequence numbers, codes) are integral.
-/

/-- Deep embedding of the JSON/JavaScript values manipulated by the codec and
the importer. `undefined` is JavaScript `undefined` (the result of reading an
absent property). -/
inductive JVal where
  | undefined : JVal
  | null : JVal
  | bool (b : Bool) : JVal
  | num (n : Int) : JVal
  | str (s : String) : JVal
  | arr (xs : List JVal) : JVal
  | obj (kvs : List (String × JVal)) : JVal

/-- Lookup of a string key in an object's own properties (first match). -/
def lookupKey : List (String × JVal) → String → JVal
  | [], _ => .undefined
  | (k, v) :: rest, key => if k = key then v else lookupKey rest key

/-- JavaScript property access `v[key]` for a string key: only objects carry
own string-keyed properties in this model; on every other value (including
arrays) the access yields `undefined`. -/
def jsGet (v : JVal) (key : String) : JVal :=
  match v with
  | .obj kvs => lookupKey kvs key
  | _ => .undefined

/-- JavaScript element access `v[i]` for an integer index: on arrays a read
past the end yields `undefined`; on every other value it yields `undefined`. -/
def jsIdx (v : JVal) (i : Nat) : JVal :=
  match v with
  | .arr xs => xs.getD i .undefined
  | _ => .undefined

/-- JavaScript truthiness of a value. -/
def jsTruthy : JVal → Bool
  | .undefined => false
  | .null => false
  | .bool b => b
  | .num n => n != 0
  | .str s => s != ""
  | .arr _ => true
  | .obj _ => true

/-! ### The canonical entry model (`src/dict/dict.ts`) -/

/-- Origin for a dictionary entry (`EntrySource` in `dict.ts`); the enum
values are the strings given by `EntrySource.value`. -/
inductive EntrySource where
  | Import : EntrySource
  | Jisho : EntrySource
  | JapanesePod : EntrySource
deriving DecidableEq, Repr

/-- The string value of the TypeScript enum member (`'I'`, `'J'`, `'P'`). -/
def EntrySource.value : EntrySource → String
  | .Import => "I"
  | .Jisho => "J"
  | .JapanesePod => "P"

/-- Link to related resources (`Link` in `dict.ts`). -/
structure Link where
  uri : String
  text : String
deriving DecidableEq, Repr

/-- English meaning for an entry (`EntryEnglish` in `dict.ts`). -/
structure EntryEnglish where
  glossary : List String
  tags : List String
  info : List String
  links : List Link
deriving DecidableEq, Repr

/-- Entry for the dictionary (`Entry` in `dict.ts`). -/
structure Entry where
  source : EntrySource
  origin : String
  expression : String
  reading : String
  extra_forms : List String
  extra_readings : List String
  english : List EntryEnglish
  tags : List String
  score : Int
deriving DecidableEq, Repr

/-! ### Serialization (`serializeEntries`, `dict.ts` lines 110-150) -/

/-- The serialization side-table (`NameMap` in `dict.ts`): `names` is the
list of interned strings in first-seen order and `index` the string-to-code
object, modelled as an association list where assignment prepends (lookup
returns the most recent binding, as for JavaScript object assignment). -/
structure NameMap where
  names : List String
  index : List (String × Nat)
deriving Repr

/-- Lookup in the `index` object of a `NameMap`. -/
def lookupName : List (String × Nat) → String → Option Nat
  | [], _ => none
  | (k, v) :: rest, s => if k = s then some v else lookupName rest s

/-- The inner `mapName` of `serializeEntries`: a falsy (empty) string maps to
the reserved code `0`; a string whose current code is falsy (absent) is pushed
onto `names` and assigned the new length of `names` as its code; otherwise the
existing code is returned. Returns the code together with the updated map. -/
def mapName (name : String) (m : NameMap) : Nat × NameMap :=
  if name = "" then (0, m)
  else if (lookupName m.index name).getD 0 = 0 then
    let names := m.names ++ [name]
    (names.length, { names := names, index := (name, names.length) :: m.index })
  else ((lookupName m.index name).getD 0, m)

/-- The inner `mapNames` of `serializeEntries`: `names.map(mapName)`, with the
`NameMap` threaded through the calls in order. -/
def mapNames (names : List String) (m : NameMap) : List Nat × NameMap :=
  match names with
  | [] => ([], m)
  | n :: rest =>
    let p := mapName n m
    let q := mapNames rest p.2
    (p.1 :: q.1, q.2)

/-- Serialization of one `EntryEnglish` to the 4-tuple array
`[glossary, tagCodes, infoCodes, linkPairs]` (`dict.ts` lines 125-132);
`eng.tags` is mapped before `eng.info`. -/
def serializeEng (m : NameMap) (eng : EntryEnglish) : JVal × NameMap :=
  let t := mapNames eng.tags m
  let i := mapNames eng.info t.2
  (.arr [.arr (eng.glossary.map .str),
         .arr (t.1.map fun c => .num c),
         .arr (i.1.map fun c => .num c),
         .arr (eng.links.map fun l => .arr [.str l.uri, .str l.text])], i.2)

/-- Serialization of the `english` array of an entry, threading the map. -/
def serializeEngs (m : NameMap) (engs : List EntryEnglish) : List JVal × NameMap :=
  match engs with
  | [] => ([], m)
  | e :: rest =>
    let p := serializeEng m e
    let q := serializeEngs p.2 rest
    (p.1 :: q.1, q.2)

/-- Serialization of one entry to the fixed-position array
`[source, originCode, expression, reading, extra_forms, extra_readings,
tagCodes, score, englishArray]` (`dict.ts` lines 115-133). The origin is
name-mapped first, then the entry tags, then each sense's tags and info. -/
def serializeEntry (m : NameMap) (e : Entry) : JVal × NameMap :=
  let o := mapName e.origin m
  let t := mapNames e.tags o.2
  let g := serializeEngs t.2 e.english
  (.arr [.str e.source.value,
         .num o.1,
         .str e.expression,
         .str e.reading,
         .arr (e.extra_forms.map .str),
         .arr (e.extra_readings.map .str),
         .arr (t.1.map fun c => .num c),
         .num e.score,
         .arr g.1], g.2)

/-- `serializeEntries` (`dict.ts` lines 110-150): maps the entries in order,
mutating the shared `NameMap`; returns the compact arrays and the final map. -/
def serializeEntries (entries : List Entry) (m : NameMap) : List JVal × NameMap :=
  match entries with
  | [] => ([], m)
  | e :: rest =>
    let p := serializeEntry m e
    let q := serializeEntries rest p.2
    (p.1 :: q.1, q.2)

/-! ### Unserialization (`unserializeEntries`, `dict.ts` lines 155-186)

The TypeScript deserializer reads *named properties* (`it.source`,
`it.origin`, ..., `it.english`) from each element of its input and calls
`.map` on `it.tags`, `it.english`, `eng.tags`, `eng.info` and `eng.links`;
calling `.map` on a non-array (in particular on `undefined`) throws a
`TypeError`, modelled as `Except.error ()`. -/

/-- Result of unserializing one link (`{uri: link[0], text: link[1]}`). -/
structure LinkJS where
  uri : JVal
  text : JVal

/-- Result of unserializing one english sense. -/
structure EngJS where
  glossary : JVal
  tags : List JVal
  info : List JVal
  links : List LinkJS

/-- Result of unserializing one entry; fields hold whatever JavaScript values
the property reads produced. -/
structure EntryJS where
  source : JVal
  origin : JVal
  expression : JVal
  reading : JVal
  extra_forms : JVal
  extra_readings : JVal
  tags : List JVal
  score : JVal
  english : List EngJS

/-- The inner `mapIndex` of `unserializeEntries`
(`dict.ts` lines 183-185): a falsy code yields `''`; otherwise the code is
used as a *property key* of the `index` object (`nameMap.index![index]`,
coercing the number to its decimal string) and the result of that lookup is
used as a position into `names` -- instead of indexing `names[code-1]`
directly. An absent lookup propagates `undefined`. -/
def mapIndex (m : NameMap) (v : JVal) : JVal :=
  if jsTruthy v then
    let key : Option String :=
      match v with
      | .num n => some (toString n)
      | .str s => some s
      | _ => none
    match key with
    | some k =>
      match lookupName m.index k with
      | some pos =>
        match m.names.get? pos with
        | some s => .str s
        | none => .undefined
      | none => .undefined
    | none => .undefined
  else .str ""

/-- The inner `mapIndexes`: `indexes.map(mapIndex)`; throws unless the value
is an array. -/
def mapIndexes (m : NameMap) (v : JVal) : Except Unit (List JVal) :=
  match v with
  | .arr xs => .ok (xs.map (mapIndex m))
  | _ => .error ()

/-- Unserialization of one english sense (`dict.ts` lines 167-176). -/
def unserializeEng (m : NameMap) (eng : JVal) : Except Unit EngJS :=
  match mapIndexes m (jsGet eng "tags") with
  | .error e => .error e
  | .ok tags =>
    match mapIndexes m (jsGet eng "info") with
    | .error e => .error e
    | .ok info =>
      match jsGet eng "links" with
      | .arr ls =>
        .ok { glossary := jsGet eng "glossary", tags := tags, info := info,
              links := ls.map fun l => LinkJS.mk (jsIdx l 0) (jsIdx l 1) }
      | _ => .error ()

/-- Unserialization of one entry (`dict.ts` lines 157-177). -/
def unserializeEntry (m : NameMap) (it : JVal) : Except Unit EntryJS :=
  match mapIndexes m (jsGet it "tags") with
  | .error e => .error e
  | .ok tags =>
    match (match jsGet it "english" with
           | .arr engs => engs.mapM (unserializeEng m)
           | _ => .error ()) with
    | .error e => .error e
    | .ok english =>
      .ok { source := jsGet it "source",
            origin := mapIndex m (jsGet it "origin"),
            expression := jsGet it "expression",
            reading := jsGet it "reading",
            extra_forms := jsGet it "extra_forms",
            extra_readings := jsGet it "extra_readings",
            tags := tags,
            score := jsGet it "score",
            english := english }

/-- `unserializeEntries` (`dict.ts` lines 155-186): `data.map(...)` over the
input, with the first thrown `TypeError` aborting the call. -/
def unserializeEntries (data : List JVal) (m : NameMap) :
    Except Unit (List EntryJS) :=
  data.mapM (unserializeEntry m)

/-! ### Structured-format importer (`importDict`, `src/unnamed/part_022`)

The file-system and archive reading stage (lines 236-274) is I/O and out of
scope; the model starts from the list of already-read bank files (name plus
parsed JSON) and covers the parse loop of lines 296-354, the sequence sort of
line 357, and the term-to-entry conversion `EntryFromImportedTerm`
(lines 129-160). Rows are validated against the TypeScript row types declared
in the source (`ImportedTerm`, `ImportedKanji`, `ImportedTag`,
`ImportedMeta`); a row that does not fit its declared type is modelled as a
parse failure. -/

/-- One step of `String.split(/\s+/)`, processing a character on the right:
a whitespace character either extends the current separator run or opens a
new (initially empty) token. The Boolean is true while inside a run. -/
def splitWsStep (c : Char) (st : List String × Bool) : List String × Bool :=
  if c.isWhitespace then
    if st.2 then st
    else ("" :: st.1, true)
  else
    match st.1 with
    | [] => ([String.mk [c]], false)
    | h :: t => ((String.mk [c] ++ h) :: t, false)

/-- JavaScript `s.split(/\s+/)`: split on maximal whitespace runs; a leading
or trailing run contributes an empty token (`\s` is modelled as the ASCII
whitespace characters). -/
def splitWs (s : String) : List String :=
  (s.toList.foldr splitWsStep ([""], false)).1

/-- The inner `strToList` of `importDict` (lines 361-363):
`s ? (s as string).split(/\s+/) : []`. A falsy value yields the empty list;
calling `.split` on a truthy non-string throws. -/
def strToList (v : JVal) : Except Unit (List String) :=
  if jsTruthy v then
    match v with
    | .str s => .ok (splitWs s)
    | _ => .error ()
  else .ok []

/-- Reads a row field declared `string` in the TypeScript row type. -/
def asStr : JVal → Except Unit String
  | .str s => .ok s
  | _ => .error ()

/-- Reads a row field declared `number` in the TypeScript row type. -/
def asNum : JVal → Except Unit Int
  | .num n => .ok n
  | _ => .error ()

/-- Reads a row field declared `string[]` in the TypeScript row type. -/
def asStrList : JVal → Except Unit (List String)
  | .arr xs => xs.mapM asStr
  | _ => .error ()

/-- Reads a row field declared `{[key: string]: string}`. -/
def asStrPairs : JVal → Except Unit (List (String × String))
  | .obj kvs => kvs.mapM fun kv => (asStr kv.2).map fun v => (kv.1, v)
  | _ => .error ()

/-- Dictionary entry for a term (`ImportedTerm` in `part_022`). -/
structure ImportedTerm where
  expression : String
  reading : String
  definitionTags : List String
  rules : List String
  score : Int
  glossary : List String
  sequence : Int
  termTags : List String
deriving DecidableEq, Repr

/-- Dictionary entry for a kanji (`ImportedKanji` in `part_022`). -/
structure ImportedKanji where
  character : String
  onyomi : List String
  kunyomi : List String
  tags : List String
  meanings : List String
  stats : List (String × String)
deriving DecidableEq, Repr

/-- Tag row (`ImportedTag` in `part_022`). -/
structure ImportedTag where
  name : String
  category : String
  order : Int
  notes : String
  score : Int
deriving DecidableEq, Repr

/-- Frequency metadata row (`ImportedMeta` in `part_022`). -/
structure ImportedMeta where
  expression : String
  mode : String
  data : Int
deriving DecidableEq, Repr

/-- Decoding of one term-bank row (`part_022` lines 302-314): positional
destructuring of the 8-tuple, with `definitionTags`, `rules` and `termTags`
passed through `strToList`. -/
def decodeTermRow (row : JVal) : Except Unit ImportedTerm :=
  match row with
  | .arr xs => do
    let expression ← asStr (xs.getD 0 .undefined)
    let reading ← asStr (xs.getD 1 .undefined)
    let definitionTags ← strToList (xs.getD 2 .undefined)
    let rules ← strToList (xs.getD 3 .undefined)
    let score ← asNum (xs.getD 4 .undefined)
    let glossary ← asStrList (xs.getD 5 .undefined)
    let sequence ← asNum (xs.getD 6 .undefined)
    let termTags ← strToList (xs.getD 7 .undefined)
    pure { expression, reading, definitionTags, rules, score, glossary,
           sequence, termTags }
  | _ => .error ()

/-- Decoding of one kanji-bank row (`part_022` lines 317-327). -/
def decodeKanjiRow (row : JVal) : Except Unit ImportedKanji :=
  match row with
  | .arr xs => do
    let character ← asStr (xs.getD 0 .undefined)
    let onyomi ← strToList (xs.getD 1 .undefined)
    let kunyomi ← strToList (xs.getD 2 .undefined)
    let tags ← strToList (xs.getD 3 .undefined)
    let meanings ← asStrList (xs.getD 4 .undefined)
    let stats ← asStrPairs (xs.getD 5 .undefined)
    pure { character, onyomi, kunyomi, tags, meanings, stats }
  | _ => .error ()

/-- Decoding of one tag-bank row (`part_022` lines 330-339). -/
def decodeTagRow (row : JVal) : Except Unit ImportedTag :=
  match row with
  | .arr xs => do
    let name ← asStr (xs.getD 0 .undefined)
    let category ← asStr (xs.getD 1 .undefined)
    let order ← asNum (xs.getD 2 .undefined)
    let notes ← asStr (xs.getD 3 .undefined)
    let score ← asNum (xs.getD 4 .undefined)
    pure { name, category, order, notes, score }
  | _ => .error ()

/-- The inner `toMeta` of `importDict` (lines 365-368). -/
def decodeMetaRow (row : JVal) : Except Unit ImportedMeta :=
  match row with
  | .arr xs => do
    let expression ← asStr (xs.getD 0 .undefined)
    let mode ← asStr (xs.getD 1 .undefined)
    let data ← asNum (xs.getD 2 .undefined)
    pure { expression, mode, data }
  | _ => .error ()

/-- The kind of a bank file, extracted from its file name: models
`it.name.replace(/(_bank(_\d+)?)?\.json$/, '')` (`part_022` line 298). -/
def bankKind (name : String) : String :=
  let cs := name.toList
  if (".json".toList).isSuffixOf cs then
    let b := cs.take (cs.length - 5)
    if ("_bank".toList).isSuffixOf b then
      String.mk (b.take (b.length - 5))
    else
      let d := (b.reverse.takeWhile Char.isDigit).length
      if 0 < d && ("_bank_".toList).isSuffixOf (b.take (b.length - d)) then
        String.mk ((b.take (b.length - d)).take (b.length - d - 6))
      else String.mk b
  else name

/-- The five row collections of `ImportedDict` (`part_022` lines 33-45).
The manifest fields of `ImportedDict` (`title`, `format`, `revision`,
`sequenced`, `path`) are copied from `index.json` before the bank loop runs
and are untouched by it, so they are not modelled here. -/
structure ImportedDictData where
  terms : List ImportedTerm
  kanjis : List ImportedKanji
  tags : List ImportedTag
  termMeta : List ImportedMeta
  kanjiMeta : List ImportedMeta
deriving DecidableEq, Repr

/-- One already-read bank file: its name and parsed JSON content. -/
structure BankFile where
  name : String
  json : JVal

/-- State of the bank-file loop of `importDict` (lines 296-354): the
collections built so far, the `flagged` set of already-warned unknown kinds,
and the stream of unrecognized-kind warnings written to the console
(recorded as the offending kind strings, in order). -/
structure ParseState where
  dict : ImportedDictData
  flagged : List String
  warnings : List String

/-- The initial loop state: empty collections (lines 289-296). -/
def initParseState : ParseState := ⟨⟨[], [], [], [], []⟩, [], []⟩

/-- Requires the file content to be an array of rows (`for (const it of
data)` / `data.map(toMeta)` throw on non-arrays). -/
def asRowArr : JVal → Except Unit (List JVal)
  | .arr xs => .ok xs
  | _ => .error ()

/-- One iteration of the bank-file loop (`part_022` lines 297-353): dispatch
on the extracted kind; the five known kinds decode their rows and append to
the matching collection; any other kind is skipped, with a warning emitted
the first time that kind is seen. -/
def processFile (st : ParseState) (f : BankFile) : Except Unit ParseState :=
  let kind := bankKind f.name
  if kind = "term" then
    match (asRowArr f.json).bind (fun rows => rows.mapM decodeTermRow) with
    | .error e => .error e
    | .ok ts =>
      .ok { st with dict := { st.dict with terms := st.dict.terms ++ ts } }
  else if kind = "kanji" then
    match (asRowArr f.json).bind (fun rows => rows.mapM decodeKanjiRow) with
    | .error e => .error e
    | .ok ks =>
      .ok { st with dict := { st.dict with kanjis := st.dict.kanjis ++ ks } }
  else if kind = "tag" then
    match (asRowArr f.json).bind (fun rows => rows.mapM decodeTagRow) with
    | .error e => .error e
    | .ok ts =>
      .ok { st with dict := { st.dict with tags := st.dict.tags ++ ts } }
  else if kind = "kanji_meta" then
    match (asRowArr f.json).bind (fun rows => rows.mapM decodeMetaRow) with
    | .error e => .error e
    | .ok ms =>
      .ok { st with dict := { st.dict with kanjiMeta := st.dict.kanjiMeta ++ ms } }
  else if kind = "term_meta" then
    match (asRowArr f.json).bind (fun rows => rows.mapM decodeMetaRow) with
    | .error e => .error e
    | .ok ms =>
      .ok { st with dict := { st.dict with termMeta := st.dict.termMeta ++ ms } }
  else if kind ∈ st.flagged then .ok st
  else .ok { st with flagged := kind :: st.flagged,
                     warnings := st.warnings ++ [kind] }

/-- The bank-file loop from a given state. -/
def processFiles (st : ParseState) : List BankFile → Except Unit ParseState
  | [] => .ok st
  | f :: rest =>
    match processFile st f with
    | .ok st1 => processFiles st1 rest
    | .error e => .error e

/-- The bank-file loop of `importDict` from the initial state. -/
def gatherFiles (files : List BankFile) : Except Unit ParseState :=
  processFiles initParseState files

/-- Ascending order on sequence numbers: the total preorder asked for by
the JavaScript comparator `(a, b) => a.sequence - b.sequence` of line 357
(the comparator is negative exactly when `a.sequence < b.sequence`). -/
def seqLE (a b : ImportedTerm) : Prop := a.sequence ≤ b.sequence

instance : DecidableRel seqLE := fun a b => Int.decLe a.sequence b.sequence

instance : IsTotal ImportedTerm seqLE := ⟨fun a b => Int.le_total a.sequence b.sequence⟩

instance : IsTrans ImportedTerm seqLE := ⟨fun _ _ _ h1 h2 => le_trans h1 h2⟩

/-- The whole parse stage of `importDict` (lines 296-359): run the bank-file
loop, then sort `terms` by `sequence` (line 357). `Array.prototype.sort` is
a stable sort ordering by the comparator; with the comparator
`a.sequence - b.sequence` this is the stable sort by `seqLE`, modelled by the
stable `List.insertionSort`. Returns the collections and the warning log. -/
def importFiles (files : List BankFile) :
    Except Unit (ImportedDictData × List String) :=
  (gatherFiles files).map fun st =>
    ({ st.dict with terms := st.dict.terms.insertionSort seqLE }, st.warnings)

/-- The inner `uniqueStrings` of `part_022` (lines 151-160): filter keeping
the first occurrence of each string, tracked by a seen-set. -/
def uniqueStrings (src : List String) : List String :=
  go src []
where
  /-- Filtering with the set of already-kept strings. -/
  go : List String → List String → List String
    | [], _ => []
    | x :: xs, seen => if x ∈ seen then go xs seen else x :: go xs (x :: seen)

/-- Modelled from the spec: the "deduplicated union of `termTags` and
`rules` (preserving first-seen order, case-sensitive exact match)" described
in spec section 4.1, written independently of the source's `uniqueStrings`
for comparison. -/
def dedupFirstSeen (l : List String) : List String :=
  l.foldl (fun acc x => if x ∈ acc then acc else acc ++ [x]) []

/-- `EntryFromImportedTerm` (`part_022` lines 129-149). -/
def EntryFromImportedTerm (origin : String) (data : ImportedTerm) : Entry :=
  { source := .Import,
    origin := origin,
    expression := data.expression,
    reading := data.reading,
    score := data.score,
    tags := uniqueStrings (data.termTags ++ data.rules),
    extra_forms := [],
    extra_readings := [],
    english := [{ glossary := data.glossary, tags := data.definitionTags,
                  info := [], links := [] }] }

/-! ### Adapter A: Jisho (`src/unnamed/part_023`)

The HTTP querying and HTML scraping (`queryJisho`) is out of scope; the
adapter `EntryFromJisho` (lines 122-156) is modelled on sanitized rows. The
row fields the adapter never reads (`attribution`, `antonyms`, `source`,
`restrictions`) are omitted from the row structures. -/

/-- A Japanese term of a Jisho row (`JishoJapanese`). -/
structure JishoJapanese where
  word : String
  reading : String
  audio : List String
deriving DecidableEq, Repr

/-- A related link of a Jisho sense. -/
structure JishoLink where
  text : String
  url : String
deriving DecidableEq, Repr

/-- One English sense of a Jisho row (`JishoEnglish`). -/
structure JishoEnglish where
  english_definitions : List String
  tags : List String
  parts_of_speech : List String
  see_also : List String
  info : List String
  links : List JishoLink
deriving DecidableEq, Repr

/-- One result row from Jisho (`JishoEntry`), with its 0-based `order`. -/
structure JishoEntry where
  slug : String
  is_common : Bool
  japanese : List JishoJapanese
  senses : List JishoEnglish
  jlpt : List String
  tags : List String
  order : Int
deriving DecidableEq, Repr

/-- The inner `mapEnglish` of `EntryFromJisho` (lines 144-155). -/
def jishoMapEnglish (data : JishoEnglish) : EntryEnglish :=
  { glossary := data.english_definitions,
    tags := data.parts_of_speech ++ data.tags,
    info := data.info,
    links := data.see_also.map (fun x => { uri := "see://" ++ x, text := x })
             ++ data.links.map fun x => { uri := x.url, text := x.text } }

/-- `EntryFromJisho` (lines 122-143). Reading `data.japanese[0].word` throws
when `japanese` is empty, modelled as `none`; otherwise the entry is built
from the first alternate, with the remaining alternates appended to
`extra_forms`/`extra_readings` (lines 137-141). -/
def EntryFromJisho (data : JishoEntry) : Option Entry :=
  match data.japanese with
  | [] => none
  | first :: rest =>
    some { source := .Jisho,
           origin := "",
           expression := first.word,
           reading := first.reading,
           tags := data.jlpt ++ data.tags
                   ++ (if data.is_common then ["P"] else []),
           extra_forms := rest.map (·.word),
           extra_readings := rest.map (·.reading),
           english := data.senses.map jishoMapEnglish,
           score := -data.order }

/-! ### Adapter B: JapanesePod (`src/unnamed/part_024`) -/

/-- One result row from JapanesePod (`JapanesePodEntry`), with its 0-based
`order`. -/
structure JapanesePodEntry where
  term : String
  kana : String
  audio : List String
  english : String
  english_info : List String
  order : Int
deriving DecidableEq, Repr

/-- `EntryFromJapanesePod` (`part_024` lines 173-193). -/
def EntryFromJapanesePod (data : JapanesePodEntry) : Entry :=
  { source := .JapanesePod,
    origin := "",
    expression := data.term,
    reading := data.kana,
    score := -data.order,
    extra_forms := [],
    extra_readings := [],
    tags := [],
    english := [{ glossary := [data.english], tags := [],
                  info := data.english_info, links := [] }] }

/-! ### Supporting lemmas -/

theorem uniqueStrings_go_eq_foldl :
    ∀ (l seen acc : List String), (∀ x, x ∈ seen ↔ x ∈ acc) →
      acc ++ uniqueStrings.go l seen
        = l.foldl (fun acc x => if x ∈ acc then acc else acc ++ [x]) acc := by
  intro l
  induction l with
  | nil => intro seen acc _; simp [uniqueStrings.go]
  | cons x xs ih =>
    intro seen acc hiff
    by_cases hx : x ∈ seen
    · simp only [uniqueStrings.go, if_pos hx, List.foldl_cons,
        if_pos ((hiff x).mp hx)]
      exact ih seen acc hiff
    · have hx' : x ∉ acc := fun hmem => hx ((hiff x).mpr hmem)
      have hside : ∀ y, y ∈ x :: seen ↔ y ∈ acc ++ [x] := by
        intro y
        simp only [List.mem_cons, List.mem_append, List.mem_singleton, hiff y]
        tauto
      rw [uniqueStrings.go, if_neg hx, List.foldl_cons, if_neg hx',
        ← ih (x :: seen) (acc ++ [x]) hside, List.append_cons]

theorem uniqueStrings_eq_dedupFirstSeen (l : List String) :
    uniqueStrings l = dedupFirstSeen l := by
  have h := uniqueStrings_go_eq_foldl l [] [] (by simp)
  simpa [uniqueStrings, dedupFirstSeen] using h

theorem uniqueStrings_go_mem :
    ∀ (l seen : List String) (x : String),
      x ∈ uniqueStrings.go l seen ↔ x ∈ l ∧ x ∉ seen := by
  intro l
  induction l with
  | nil => intro seen x; simp [uniqueStrings.go]
  | cons y ys ih =>
    intro seen x
    by_cases hy : y ∈ seen
    · rw [uniqueStrings.go, if_pos hy, ih]
      simp only [List.mem_cons]
      constructor
      · rintro ⟨h1, h2⟩
        exact ⟨Or.inr h1, h2⟩
      · rintro ⟨h1 | h1, h2⟩
        · exact absurd (h1 ▸ hy) h2
        · exact ⟨h1, h2⟩
    · rw [uniqueStrings.go, if_neg hy]
      simp only [List.mem_cons, ih, List.mem_cons]
      constructor
      · rintro (rfl | ⟨h1, h2⟩)
        · exact ⟨Or.inl rfl, hy⟩
        · exact ⟨Or.inr h1, fun hs => h2 (Or.inr hs)⟩
      · rintro ⟨rfl | h1, h2⟩
        · exact Or.inl rfl
        · by_cases hxy : x = y
          · exact Or.inl hxy
          · exact Or.inr ⟨h1, fun hs => hs.elim hxy h2⟩

theorem uniqueStrings_go_nodup :
    ∀ (l seen : List String), (uniqueStrings.go l seen).Nodup := by
  intro l
  induction l with
  | nil => intro seen; simp [uniqueStrings.go]
  | cons y ys ih =>
    intro seen
    by_cases hy : y ∈ seen
    · rw [uniqueStrings.go, if_pos hy]; exact ih seen
    · rw [uniqueStrings.go, if_neg hy]
      refine List.nodup_cons.mpr ⟨fun hmem => ?_, ih (y :: seen)⟩
      exact ((uniqueStrings_go_mem ys (y :: seen) y).mp hmem).2
        (List.mem_cons_self y seen)

theorem uniqueStrings_go_sublist :
    ∀ (l seen : List String), List.Sublist (uniqueStrings.go l seen) l := by
  intro l
  induction l with
  | nil => intro seen; simp [uniqueStrings.go]
  | cons y ys ih =>
    intro seen
    by_cases hy : y ∈ seen
    · rw [uniqueStrings.go, if_pos hy]
      exact (ih seen).trans (List.sublist_cons_self y ys)
    · rw [uniqueStrings.go, if_neg hy]
      exact List.Sublist.cons₂ y (ih (y :: seen))

/-! ### Claim theorems: term conversion and adapters -/

/-- C4: for every `ImportedTerm` and dictionary title,
`EntryFromImportedTerm` builds exactly one `Entry` with `source = Import`,
`origin` equal to the title, tags equal to the deduplicated union of
`termTags` followed by `rules` (first-seen order, case-sensitive exact-match
dedup: stated as equality with the spec-described `dedupFirstSeen`, plus
nodup, order-preserving sublist, and membership), empty `extra_forms` and
`extra_readings`, and exactly one `EntryEnglish` carrying the term's
`glossary` and `definitionTags` with empty `info` and `links`; and the term
bank row `["家", "いえ", "", "", 100, ["house"], 42, "P n"]` decodes and
converts to the claimed entry. -/
theorem C4_entryFromImportedTerm_shape :
    (∀ (title : String) (data : ImportedTerm),
      let e := EntryFromImportedTerm title data
      e.source = .Import ∧ e.origin = title ∧
      e.expression = data.expression ∧ e.reading = data.reading ∧
      e.score = data.score ∧ e.extra_forms = [] ∧ e.extra_readings = [] ∧
      e.english = [{ glossary := data.glossary, tags := data.definitionTags,
                     info := [], links := [] }] ∧
      e.tags = dedupFirstSeen (data.termTags ++ data.rules) ∧
      e.tags.Nodup ∧ List.Sublist e.tags (data.termTags ++ data.rules) ∧
      (∀ x, x ∈ e.tags ↔ x ∈ data.termTags ++ data.rules))
    ∧ decodeTermRow (.arr [.str "家", .str "いえ", .str "", .str "",
        .num 100, .arr [.str "house"], .num 42, .str "P n"])
      = .ok { expression := "家", reading := "いえ", definitionTags := [],
              rules := [], score := 100, glossary := ["house"],
              sequence := 42, termTags := ["P", "n"] }
    ∧ EntryFromImportedTerm "Test Dictionary"
        { expression := "家", reading := "いえ", definitionTags := [],
          rules := [], score := 100, glossary := ["house"],
          sequence := 42, termTags := ["P", "n"] }
      = { source := .Import, origin := "Test Dictionary", expression := "家",
          reading := "いえ", extra_forms := [], extra_readings := [],
          english := [{ glossary := ["house"], tags := [], info := [],
                        links := [] }],
          tags := ["P", "n"], score := 100 } := by
  refine ⟨fun title data => ?_, rfl, rfl⟩
  refine ⟨rfl, rfl, rfl, rfl, rfl, rfl, rfl, rfl,
    uniqueStrings_eq_dedupFirstSeen _, uniqueStrings_go_nodup _ _,
    uniqueStrings_go_sublist _ _, fun x => ?_⟩
  rw [show (EntryFromImportedTerm title data).tags
      = uniqueStrings (data.termTags ++ data.rules) from rfl,
    uniqueStrings, uniqueStrings_go_mem]
  simp

/-- C7: for every Jisho row with a non-empty list of alternate forms, the
produced `Entry` takes `expression`/`reading` from the first alternate,
`extra_forms`/`extra_readings` from the remaining alternates in order, and
the two extra lists have equal length. -/
theorem C7_jisho_parallel_forms (data : JishoEntry) (first : JishoJapanese)
    (rest : List JishoJapanese) (h : data.japanese = first :: rest) :
    ∃ e, EntryFromJisho data = some e ∧
      e.expression = first.word ∧ e.reading = first.reading ∧
      e.extra_forms = rest.map (·.word) ∧
      e.extra_readings = rest.map (·.reading) ∧
      e.extra_forms.length = e.extra_readings.length := by
  simp only [EntryFromJisho, h]
  exact ⟨_, rfl, rfl, rfl, rfl, rfl, by simp⟩

/-- Witness for C7 at a concrete two-alternate row. -/
theorem C7_jisho_parallel_forms_witness :
    ∃ e, EntryFromJisho
        { slug := "家", is_common := true,
          japanese := [⟨"家", "いえ", []⟩, ⟨"家", "うち", []⟩],
          senses := [], jlpt := ["jlpt-n5"], tags := [], order := 0 }
      = some e ∧
      e.expression = "家" ∧ e.reading = "いえ" ∧
      e.extra_forms = ["家"] ∧ e.extra_readings = ["うち"] ∧
      e.extra_forms.length = e.extra_readings.length := by
  simpa using C7_jisho_parallel_forms
    { slug := "家", is_common := true,
      japanese := [⟨"家", "いえ", []⟩, ⟨"家", "うち", []⟩],
      senses := [], jlpt := ["jlpt-n5"], tags := [], order := 0 }
    ⟨"家", "いえ", []⟩ [⟨"家", "うち", []⟩] rfl

/-- C8: both adapters set `score = -order`; consequently a row listed
earlier (smaller 0-based order) gets the strictly larger score, so it sorts
first under descending-by-score ordering. -/
theorem C8_score_is_negated_order :
    (∀ (data : JishoEntry) (e : Entry),
       EntryFromJisho data = some e → e.score = -data.order)
    ∧ (∀ data : JapanesePodEntry, (EntryFromJapanesePod data).score = -data.order)
    ∧ (∀ (data1 data2 : JishoEntry) (e1 e2 : Entry),
       EntryFromJisho data1 = some e1 → EntryFromJisho data2 = some e2 →
       data1.order < data2.order → e2.score < e1.score)
    ∧ (∀ data1 data2 : JapanesePodEntry, data1.order < data2.order →
       (EntryFromJapanesePod data2).score < (EntryFromJapanesePod data1).score) := by
  have hj : ∀ (data : JishoEntry) (e : Entry),
      EntryFromJisho data = some e → e.score = -data.order := by
    intro data e h
    cases hjp : data.japanese with
    | nil => simp [EntryFromJisho, hjp] at h
    | cons first rest =>
      simp only [EntryFromJisho, hjp, Option.some.injEq] at h
      rw [← h]
  refine ⟨hj, fun data => rfl, fun d1 d2 e1 e2 h1 h2 hlt => ?_, fun d1 d2 hlt => ?_⟩
  · rw [hj d1 e1 h1, hj d2 e2 h2]; omega
  · show -d2.order < -d1.order; omega

/-- Witness for C8: rows with order 0, 1, 2 produce scores 0, -1, -2 for
both adapters. -/
theorem C8_score_is_negated_order_witness :
    (EntryFromJapanesePod ⟨"家", "いえ", [], "house", [], 0⟩).score = 0
    ∧ (EntryFromJapanesePod ⟨"家", "いえ", [], "house", [], 1⟩).score = -1
    ∧ (EntryFromJapanesePod ⟨"家", "いえ", [], "house", [], 2⟩).score = -2
    ∧ (∀ e : Entry,
       EntryFromJisho ⟨"家", false, [⟨"家", "いえ", []⟩], [], [], [], 2⟩ = some e →
       e.score = -2) := by
  refine ⟨?_, ?_, ?_, fun e h => ?_⟩
  · exact (C8_score_is_negated_order.2.1 ⟨"家", "いえ", [], "house", [], 0⟩).trans (by decide)
  · exact (C8_score_is_negated_order.2.1 ⟨"家", "いえ", [], "house", [], 1⟩).trans (by decide)
  · exact (C8_score_is_negated_order.2.1 ⟨"家", "いえ", [], "house", [], 2⟩).trans (by decide)
  · exact (C8_score_is_negated_order.1 _ e h).trans (by decide)

/-- C9: the entry-level tags produced by the Jisho adapter are exactly the
concatenation of the row's JLPT tags, the row's tags, and `"P"` iff the row
is marked common -- with no deduplication applied. -/
theorem C9_jisho_tags_concat (data : JishoEntry) (e : Entry)
    (h : EntryFromJisho data = some e) :
    e.tags = data.jlpt ++ data.tags ++ (if data.is_common then ["P"] else []) := by
  cases hjp : data.japanese with
  | nil => simp [EntryFromJisho, hjp] at h
  | cons first rest =>
    simp only [EntryFromJisho, hjp, Option.some.injEq] at h
    rw [← h]

/-- Witness for C9 at a row whose tag buckets overlap, showing the
duplicates are preserved (no deduplication). -/
theorem C9_jisho_tags_concat_witness :
    EntryFromJisho
      { slug := "x", is_common := true, japanese := [⟨"x", "y", []⟩],
        senses := [], jlpt := ["P"], tags := ["P"], order := 0 }
      = some { source := .Jisho, origin := "", expression := "x",
               reading := "y", extra_forms := [], extra_readings := [],
               english := [], tags := ["P", "P", "P"], score := 0 }
    ∧ ({ source := .Jisho, origin := "", expression := "x", reading := "y",
         extra_forms := [], extra_readings := [], english := [],
         tags := ["P", "P", "P"], score := 0 } : Entry).tags
      = ["P", "P", "P"] := by
  refine ⟨rfl, ?_⟩
  exact (C9_jisho_tags_concat
    { slug := "x", is_common := true, japanese := [⟨"x", "y", []⟩],
      senses := [], jlpt := ["P"], tags := ["P"], order := 0 }
    { source := .Jisho, origin := "", expression := "x", reading := "y",
      extra_forms := [], extra_readings := [], english := [],
      tags := ["P", "P", "P"], score := 0 } rfl).trans (by decide)

/-! ### Codec lemmas: behavior of `mapName` and code stability -/

theorem mapName_empty (m : NameMap) : mapName "" m = (0, m) := by
  simp [mapName]

theorem mapName_new (s : String) (m : NameMap) (hs : s ≠ "")
    (h : (lookupName m.index s).getD 0 = 0) :
    mapName s m = (m.names.length + 1,
      ⟨m.names ++ [s], (s, m.names.length + 1) :: m.index⟩) := by
  simp [mapName, hs, h]

theorem mapName_old (s : String) (m : NameMap) (c : Nat) (hs : s ≠ "")
    (h : lookupName m.index s = some c) (hc : c ≠ 0) :
    mapName s m = (c, m) := by
  have hz : ¬ (lookupName m.index s).getD 0 = 0 := by rw [h]; simpa using hc
  rw [mapName, if_neg hs, if_neg hz, h]
  rfl

theorem mapName_preserve (t s : String) (m : NameMap) (c : Nat)
    (h : lookupName m.index s = some c) (hc : c ≠ 0) :
    lookupName ((mapName t m).2).index s = some c := by
  by_cases ht : t = ""
  · rw [ht, mapName_empty]; exact h
  · by_cases hz : (lookupName m.index t).getD 0 = 0
    · rw [mapName_new t m ht hz]
      show lookupName ((t, m.names.length + 1) :: m.index) s = some c
      rw [lookupName]
      by_cases hts : t = s
      · exfalso
        subst hts
        rw [h] at hz
        simp only [Option.getD_some] at hz
        exact hc hz
      · rw [if_neg hts]; exact h
    · obtain ⟨c', hc'⟩ : ∃ c', lookupName m.index t = some c' := by
        cases hl : lookupName m.index t with
        | none => rw [hl] at hz; simp at hz
        | some c' => exact ⟨c', rfl⟩
      have hcz : c' ≠ 0 := by rw [hc'] at hz; simpa using hz
      rw [mapName_old t m c' ht hc' hcz]; exact h

theorem mapName_self (s : String) (m : NameMap) (hs : s ≠ "") :
    lookupName ((mapName s m).2).index s = some (mapName s m).1
    ∧ (mapName s m).1 ≠ 0 := by
  by_cases hz : (lookupName m.index s).getD 0 = 0
  · rw [mapName_new s m hs hz]
    constructor
    · show lookupName ((s, m.names.length + 1) :: m.index) s = _
      rw [lookupName, if_pos rfl]
    · simp
  · obtain ⟨c', hc'⟩ : ∃ c', lookupName m.index s = some c' := by
      cases hl : lookupName m.index s with
      | none => rw [hl] at hz; simp at hz
      | some c' => exact ⟨c', rfl⟩
    have hcz : c' ≠ 0 := by rw [hc'] at hz; simpa using hz
    rw [mapName_old s m c' hs hc' hcz]
    exact ⟨hc', hcz⟩

theorem mapNames_preserve (ts : List String) (m : NameMap) (s : String) (c : Nat)
    (h : lookupName m.index s = some c) (hc : c ≠ 0) :
    lookupName ((mapNames ts m).2).index s = some c := by
  induction ts generalizing m with
  | nil => exact h
  | cons t rest ih =>
    show lookupName ((mapNames rest (mapName t m).2).2).index s = some c
    exact ih _ (mapName_preserve t s m c h hc)

theorem serializeEng_preserve (e : EntryEnglish) (m : NameMap) (s : String)
    (c : Nat) (h : lookupName m.index s = some c) (hc : c ≠ 0) :
    lookupName ((serializeEng m e).2).index s = some c := by
  show lookupName ((mapNames e.info (mapNames e.tags m).2).2).index s = some c
  exact mapNames_preserve _ _ s c (mapNames_preserve _ _ s c h hc) hc

theorem serializeEngs_preserve (es : List EntryEnglish) (m : NameMap)
    (s : String) (c : Nat) (h : lookupName m.index s = some c) (hc : c ≠ 0) :
    lookupName ((serializeEngs m es).2).index s = some c := by
  induction es generalizing m with
  | nil => exact h
  | cons e rest ih =>
    show lookupName ((serializeEngs (serializeEng m e).2 rest).2).index s = some c
    exact ih _ (serializeEng_preserve e m s c h hc)

theorem serializeEntry_preserve (e : Entry) (m : NameMap) (s : String) (c : Nat)
    (h : lookupName m.index s = some c) (hc : c ≠ 0) :
    lookupName ((serializeEntry m e).2).index s = some c := by
  show lookupName
    ((serializeEngs (mapNames e.tags (mapName e.origin m).2).2 e.english).2).index s
    = some c
  exact serializeEngs_preserve _ _ s c
    (mapNames_preserve _ _ s c (mapName_preserve _ s m c h hc) hc) hc

theorem serializeEntries_preserve (es : List Entry) (m : NameMap) (s : String)
    (c : Nat) (h : lookupName m.index s = some c) (hc : c ≠ 0) :
    lookupName ((serializeEntries es m).2).index s = some c := by
  induction es generalizing m with
  | nil => exact h
  | cons e rest ih =>
    show lookupName ((serializeEntries rest (serializeEntry m e).2).2).index s
      = some c
    exact ih _ (serializeEntry_preserve e m s c h hc)

theorem serialize_origin_recorded :
    ∀ (es : List Entry) (m : NameMap) (i : Nat) (h : i < es.length),
      (es.get ⟨i, h⟩).origin ≠ "" →
      ∃ c : Nat, c ≠ 0 ∧
        jsIdx ((serializeEntries es m).1.getD i .undefined) 1 = .num c ∧
        lookupName ((serializeEntries es m).2).index (es.get ⟨i, h⟩).origin
          = some c := by
  intro es
  induction es with
  | nil => intro m i h; exact absurd h (by simp)
  | cons e rest ih =>
    intro m i h horig
    cases i with
    | zero =>
      refine ⟨(mapName e.origin m).1, (mapName_self e.origin m horig).2, rfl, ?_⟩
      show lookupName ((serializeEntries rest (serializeEntry m e).2).2).index
        e.origin = some (mapName e.origin m).1
      have hrec := (mapName_self e.origin m horig).1
      have hnz := (mapName_self e.origin m horig).2
      refine serializeEntries_preserve rest _ _ _ ?_ hnz
      show lookupName
        ((serializeEngs (mapNames e.tags (mapName e.origin m).2).2 e.english).2).index
        e.origin = some (mapName e.origin m).1
      exact serializeEngs_preserve _ _ _ _
        (mapNames_preserve _ _ _ _ hrec hnz) hnz
    | succ i =>
      have h' : i < rest.length := Nat.lt_of_succ_lt_succ h
      exact ih (serializeEntry m e).2 i h' horig

theorem serialize_origin_stable :
    ∀ (es : List Entry) (m : NameMap) (s : String) (c : Nat), s ≠ "" →
      lookupName m.index s = some c → c ≠ 0 →
      ∀ (j : Nat) (h : j < es.length), (es.get ⟨j, h⟩).origin = s →
      jsIdx ((serializeEntries es m).1.getD j .undefined) 1 = .num c := by
  intro es
  induction es with
  | nil => intro m s c _ _ _ j h; exact absurd h (by simp)
  | cons e rest ih =>
    intro m s c hs hrec hc j h horig
    cases j with
    | zero =>
      show jsIdx (serializeEntry m e).1 1 = .num c
      have horig' : e.origin = s := horig
      have : mapName e.origin m = (c, m) := by
        rw [horig']; exact mapName_old s m c hs hrec hc
      show JVal.num ((mapName e.origin m).1 : Int) = .num c
      rw [this]
    | succ j =>
      have h' : j < rest.length := Nat.lt_of_succ_lt_succ h
      exact ih (serializeEntry m e).2 s c hs
        (serializeEntry_preserve e m s c hrec hc) hc j h' horig

theorem serialize_origin_empty :
    ∀ (es : List Entry) (m : NameMap) (i : Nat) (h : i < es.length),
      (es.get ⟨i, h⟩).origin = "" →
      jsIdx ((serializeEntries es m).1.getD i .undefined) 1 = .num 0 := by
  intro es
  induction es with
  | nil => intro m i h; exact absurd h (by simp)
  | cons e rest ih =>
    intro m i h horig
    cases i with
    | zero =>
      have horig' : e.origin = "" := horig
      show JVal.num ((mapName e.origin m).1 : Int) = .num 0
      rw [horig', mapName_empty]
      rfl
    | succ i => exact ih (serializeEntry m e).2 i (Nat.lt_of_succ_lt_succ h) horig

theorem unserializeEntry_origin (m : NameMap) (it : JVal) (rec : EntryJS)
    (hok : unserializeEntry m it = .ok rec) :
    rec.origin = mapIndex m (jsGet it "origin") := by
  unfold unserializeEntry at hok
  cases htags : mapIndexes m (jsGet it "tags") with
  | error e => rw [htags] at hok; cases hok
  | ok tags =>
    rw [htags] at hok
    cases heng : (match jsGet it "english" with
                  | .arr engs => engs.mapM (unserializeEng m)
                  | _ => (.error () : Except Unit (List EngJS))) with
    | error e => rw [heng] at hok; cases hok
    | ok english =>
      rw [heng] at hok
      cases hok
      rfl

/-! ### Claim theorems: serialization codec -/

/-- C2: `mapName` maps the empty string to code 0; a non-empty string not in
the `NameMap` is appended to `names` and assigned the new (1-based) length
of `names` as its code; a previously seen non-empty string keeps its code;
and consequently serializing two batches through the same `NameMap` emits
identical codes for identical (non-empty) origin strings across the two
batches. -/
theorem C2_mapName_contract :
    (∀ m : NameMap, mapName "" m = (0, m))
    ∧ (∀ (s : String) (m : NameMap), s ≠ "" → lookupName m.index s = none →
        mapName s m = (m.names.length + 1,
          ⟨m.names ++ [s], (s, m.names.length + 1) :: m.index⟩))
    ∧ (∀ (s : String) (m : NameMap) (c : Nat), s ≠ "" →
        lookupName m.index s = some c → c ≠ 0 → mapName s m = (c, m))
    ∧ (∀ (b1 b2 : List Entry) (m0 : NameMap) (i j : Nat)
        (hi : i < b1.length) (hj : j < b2.length),
        (b1.get ⟨i, hi⟩).origin = (b2.get ⟨j, hj⟩).origin →
        (b1.get ⟨i, hi⟩).origin ≠ "" →
        jsIdx ((serializeEntries b1 m0).1.getD i .undefined) 1
          = jsIdx ((serializeEntries b2 (serializeEntries b1 m0).2).1.getD j
              .undefined) 1) := by
  refine ⟨mapName_empty, fun s m hs h => ?_, mapName_old,
    fun b1 b2 m0 i j hi hj heq hne => ?_⟩
  · exact mapName_new s m hs (by rw [h]; rfl)
  · obtain ⟨c, hc0, hemit, hrec⟩ := serialize_origin_recorded b1 m0 i hi hne
    rw [hemit,
      serialize_origin_stable b2 (serializeEntries b1 m0).2
        ((b1.get ⟨i, hi⟩).origin) c hne hrec hc0 j hj heq.symm]

/-- Witness for C2: the three `mapName` cases at concrete inputs, and the
shared code for origin `"P"` across two concrete batches. -/
theorem C2_mapName_contract_witness :
    mapName "" ⟨["P"], [("P", 1)]⟩ = (0, ⟨["P"], [("P", 1)]⟩)
    ∧ mapName "n" ⟨["P"], [("P", 1)]⟩ = (2, ⟨["P", "n"], [("n", 2), ("P", 1)]⟩)
    ∧ mapName "P" ⟨["P"], [("P", 1)]⟩ = (1, ⟨["P"], [("P", 1)]⟩)
    ∧ jsIdx ((serializeEntries
        [{ source := .Import, origin := "P", expression := "a", reading := "",
           extra_forms := [], extra_readings := [], english := [], tags := [],
           score := 0 }] ⟨[], []⟩).1.getD 0 .undefined) 1
      = jsIdx ((serializeEntries
        [{ source := .Jisho, origin := "P", expression := "b", reading := "c",
           extra_forms := [], extra_readings := [], english := [],
           tags := ["x"], score := 7 }]
        (serializeEntries
          [{ source := .Import, origin := "P", expression := "a",
             reading := "", extra_forms := [], extra_readings := [],
             english := [], tags := [], score := 0 }] ⟨[], []⟩).2).1.getD 0
          .undefined) 1 := by
  refine ⟨C2_mapName_contract.1 ⟨["P"], [("P", 1)]⟩, ?_, ?_, ?_⟩
  · have h := C2_mapName_contract.2.1 "n" ⟨["P"], [("P", 1)]⟩ (by decide) rfl
    simpa using h
  · exact C2_mapName_contract.2.2.1 "P" ⟨["P"], [("P", 1)]⟩ 1 (by decide) rfl
      (by decide)
  · exact C2_mapName_contract.2.2.2
      [{ source := .Import, origin := "P", expression := "a", reading := "",
         extra_forms := [], extra_readings := [], english := [], tags := [],
         score := 0 }]
      [{ source := .Jisho, origin := "P", expression := "b", reading := "c",
         extra_forms := [], extra_readings := [], english := [],
         tags := ["x"], score := 7 }]
      ⟨[], []⟩ 0 0 (by decide) (by decide) rfl (by decide)

/-- C3: an entry whose origin is the empty string serializes with
`originCode = 0` (for any entry list, position and starting map), and on the
unserialize side `mapIndex` sends code 0 back to `origin = ""` for any
`NameMap` (stated for any successfully unserialized record whose input had
origin code 0). -/
theorem C3_origin_sentinel :
    (∀ (es : List Entry) (m : NameMap) (i : Nat) (h : i < es.length),
      (es.get ⟨i, h⟩).origin = "" →
      jsIdx ((serializeEntries es m).1.getD i .undefined) 1 = .num 0)
    ∧ (∀ m : NameMap, mapIndex m (.num 0) = .str "")
    ∧ (∀ (m : NameMap) (it : JVal) (rec : EntryJS),
      unserializeEntry m it = .ok rec → jsGet it "origin" = .num 0 →
      rec.origin = .str "") := by
  refine ⟨serialize_origin_empty, fun m => rfl, fun m it rec hok h0 => ?_⟩
  rw [unserializeEntry_origin m it rec hok, h0]
  rfl

/-- Witness for C3: a concrete empty-origin entry serializes to origin code
0, and a concrete object-shaped record with origin code 0 unserializes back
to the empty origin. -/
theorem C3_origin_sentinel_witness :
    jsIdx ((serializeEntries
      [{ source := .Jisho, origin := "", expression := "a", reading := "",
         extra_forms := [], extra_readings := [], english := [], tags := [],
         score := 0 }] ⟨[], []⟩).1.getD 0 .undefined) 1 = .num 0
    ∧ unserializeEntry ⟨["P"], [("P", 1)]⟩
        (.obj [("source", .str "J"), ("origin", .num 0),
               ("expression", .str "a"), ("reading", .str ""),
               ("extra_forms", .arr []), ("extra_readings", .arr []),
               ("tags", .arr []), ("score", .num 0), ("english", .arr [])])
      = .ok { source := .str "J", origin := .str "", expression := .str "a",
              reading := .str "", extra_forms := .arr [],
              extra_readings := .arr [], tags := [], score := .num 0,
              english := [] }
    ∧ ({ source := .str "J", origin := .str "", expression := .str "a",
         reading := .str "", extra_forms := .arr [],
         extra_readings := .arr [], tags := [], score := .num 0,
         english := [] } : EntryJS).origin = .str "" := by
  refine ⟨?_, rfl, ?_⟩
  · exact C3_origin_sentinel.1
      [{ source := .Jisho, origin := "", expression := "a", reading := "",
         extra_forms := [], extra_readings := [], english := [], tags := [],
         score := 0 }] ⟨[], []⟩ 0 (by decide) rfl
  · exact C3_origin_sentinel.2.2 ⟨["P"], [("P", 1)]⟩
      (.obj [("source", .str "J"), ("origin", .num 0),
             ("expression", .str "a"), ("reading", .str ""),
             ("extra_forms", .arr []), ("extra_readings", .arr []),
             ("tags", .arr []), ("score", .num 0), ("english", .arr [])])
      _ rfl rfl

/-- C1: evaluation of the claimed round trip at a concrete one-entry list:
`unserializeEntries (serializeEntries es m) m` throws (the serializer emits
positional arrays while the deserializer reads named properties and calls
`.map` on `it.tags`, which is `undefined` on an array), so it does not
reproduce the input entries. -/
theorem C1_roundtrip_throws :
    unserializeEntries
      (serializeEntries
        [{ source := .Import, origin := "dict", expression := "家",
           reading := "いえ", extra_forms := [], extra_readings := [],
           english := [{ glossary := ["house"], tags := ["n"], info := [],
                         links := [] }],
           tags := ["P"], score := 1 }] ⟨[], []⟩).1
      (serializeEntries
        [{ source := .Import, origin := "dict", expression := "家",
           reading := "いえ", extra_forms := [], extra_readings := [],
           english := [{ glossary := ["house"], tags := ["n"], info := [],
                         links := [] }],
           tags := ["P"], score := 1 }] ⟨[], []⟩).2 = .error () := rfl

/-- C10: evaluation at a concrete entry and a pre-populated `NameMap`: the
deserializer applied to the serializer's output throws before producing any
entries, so not even the non-name-mapped fields (source, expression,
reading, extra forms/readings, score, glossary, links) are reproduced. -/
theorem C10_roundtrip_no_entries :
    unserializeEntries
      (serializeEntries
        [{ source := .Jisho, origin := "", expression := "家",
           reading := "いえ", extra_forms := ["宅"], extra_readings := ["たく"],
           english := [{ glossary := ["house", "home"], tags := [],
                         info := ["info"],
                         links := [{ uri := "see://家出", text := "家出" }] }],
           tags := [], score := 0 }] ⟨["P"], [("P", 1)]⟩).1
      (serializeEntries
        [{ source := .Jisho, origin := "", expression := "家",
           reading := "いえ", extra_forms := ["宅"], extra_readings := ["たく"],
           english := [{ glossary := ["house", "home"], tags := [],
                         info := ["info"],
                         links := [{ uri := "see://家出", text := "家出" }] }],
           tags := [], score := 0 }] ⟨["P"], [("P", 1)]⟩).2 = .error () := rfl

/-- A minimal well-formed term-bank row carrying the given sequence number,
used in the concrete sequence-ordering checks. -/
def seqRow (n : Int) : JVal :=
  .arr [.str "x", .str "y", .str "", .str "", .num 1, .arr [], .num n, .str ""]

/-- C5: after the parse stage, `terms` is the stable sort of the gathered
terms, ascending by `sequence`: it is sorted under `seqLE`, a permutation of
the gathered collection, and every `seqLE`-sorted sublist of the gathered
collection survives as a sublist (stability); rows with sequence numbers
`[5, 1, 3]` come out ordered `[1, 3, 5]`. -/
theorem C5_terms_sorted_by_sequence :
    (∀ (files : List BankFile) (st : ParseState),
      gatherFiles files = .ok st →
      ∃ d : ImportedDictData,
        importFiles files = .ok (d, st.warnings)
        ∧ d.terms.Sorted seqLE
        ∧ d.terms.Perm st.dict.terms
        ∧ (∀ c : List ImportedTerm, c.Pairwise seqLE →
            List.Sublist c st.dict.terms → List.Sublist c d.terms))
    ∧ (importFiles [⟨"term_bank.json", .arr [seqRow 5, seqRow 1, seqRow 3]⟩]).map
        (fun p => p.1.terms.map (·.sequence)) = .ok [1, 3, 5] := by
  constructor
  · intro files st h
    refine ⟨{ st.dict with terms := st.dict.terms.insertionSort seqLE },
      ?_, ?_, ?_, ?_⟩
    · unfold importFiles
      rw [h]
      rfl
    · exact List.sorted_insertionSort seqLE st.dict.terms
    · exact List.perm_insertionSort seqLE st.dict.terms
    · exact fun c hp hsub => List.sublist_insertionSort hp hsub
  · rfl

/-- Witness for C5: the sort applied to the concrete `[5, 1, 3]` term bank. -/
theorem C5_terms_sorted_by_sequence_witness :
    ∃ d : ImportedDictData,
      importFiles [⟨"term_bank.json", .arr [seqRow 5, seqRow 1, seqRow 3]⟩]
        = .ok (d, [])
      ∧ d.terms.map (·.sequence) = [1, 3, 5]
      ∧ d.terms.Sorted seqLE := by
  obtain ⟨d, h1, h2, -, -⟩ :=
    C5_terms_sorted_by_sequence.1
      [⟨"term_bank.json", .arr [seqRow 5, seqRow 1, seqRow 3]⟩] _ rfl
  refine ⟨d, h1, ?_, h2⟩
  have h3 := C5_terms_sorted_by_sequence.2
  rw [h1] at h3
  simpa [Except.map] using h3

/-! ### Unknown-bank-kind tolerance -/

/-- The five bank kinds the importer recognizes (`part_022` lines 300-346). -/
def knownKinds : List String := ["term", "kanji", "tag", "term_meta", "kanji_meta"]

theorem processFile_unknown (st : ParseState) (f : BankFile)
    (h : bankKind f.name ∉ knownKinds) :
    processFile st f =
      .ok (if bankKind f.name ∈ st.flagged then st
           else { st with flagged := bankKind f.name :: st.flagged,
                          warnings := st.warnings ++ [bankKind f.name] }) := by
  simp only [knownKinds, List.mem_cons, List.mem_singleton, not_or,
    List.not_mem_nil, not_false_iff, and_true] at h
  obtain ⟨h1, h2, h3, h4, h5⟩ := h
  simp only [processFile]
  rw [if_neg h1, if_neg h2, if_neg h3, if_neg h5, if_neg h4]
  by_cases hf : bankKind f.name ∈ st.flagged
  · rw [if_pos hf, if_pos hf]
  · rw [if_neg hf, if_neg hf]

theorem processFile_known_eq (st : ParseState) (f : BankFile)
    (h : bankKind f.name ∈ knownKinds) :
    processFile st f = (processFile ⟨st.dict, [], []⟩ f).map
      fun st' => ⟨st'.dict, st.flagged, st.warnings⟩ := by
  simp only [knownKinds, List.mem_cons, List.mem_singleton,
    List.not_mem_nil, or_false] at h
  rcases h with h | h | h | h | h <;> simp only [processFile, h]
  · cases hx : (asRowArr f.json).bind (fun rows => rows.mapM decodeTermRow) <;>
      simp [hx, Except.map]
  · cases hx : (asRowArr f.json).bind (fun rows => rows.mapM decodeKanjiRow) <;>
      simp [hx, Except.map]
  · cases hx : (asRowArr f.json).bind (fun rows => rows.mapM decodeTagRow) <;>
      simp [hx, Except.map]
  · cases hx : (asRowArr f.json).bind (fun rows => rows.mapM decodeMetaRow) <;>
      simp [hx, Except.map]
  · cases hx : (asRowArr f.json).bind (fun rows => rows.mapM decodeMetaRow) <;>
      simp [hx, Except.map]

/-- Invariant of the warning log: no kind is warned about twice, and the
`flagged` set holds exactly the kinds warned about so far. -/
def LogInv (st : ParseState) : Prop :=
  st.warnings.Nodup ∧ ∀ k, k ∈ st.flagged ↔ k ∈ st.warnings

theorem processFile_ok_cases (st st' : ParseState) (f : BankFile)
    (h : processFile st f = .ok st') :
    (st'.flagged = st.flagged ∧ st'.warnings = st.warnings)
    ∨ (bankKind f.name ∉ knownKinds ∧ bankKind f.name ∉ st.flagged
       ∧ st'.dict = st.dict
       ∧ st'.flagged = bankKind f.name :: st.flagged
       ∧ st'.warnings = st.warnings ++ [bankKind f.name]) := by
  by_cases hk : bankKind f.name ∈ knownKinds
  · left
    rw [processFile_known_eq st f hk] at h
    cases hin : processFile ⟨st.dict, [], []⟩ f with
    | error e => rw [hin] at h; cases h
    | ok stIn =>
      rw [hin] at h
      simp only [Except.map] at h
      cases h
      exact ⟨rfl, rfl⟩
  · rw [processFile_unknown st f hk] at h
    by_cases hf : bankKind f.name ∈ st.flagged
    · rw [if_pos hf] at h
      cases h
      exact Or.inl ⟨rfl, rfl⟩
    · rw [if_neg hf] at h
      cases h
      exact Or.inr ⟨hk, hf, rfl, rfl, rfl⟩

theorem processFile_loginv (st st' : ParseState) (f : BankFile)
    (h : processFile st f = .ok st') (hinv : LogInv st) : LogInv st' := by
  rcases processFile_ok_cases st st' f h with ⟨hf, hw⟩ | ⟨_, hnf, _, hf, hw⟩
  · exact ⟨hw ▸ hinv.1, fun k => by rw [hf, hw]; exact hinv.2 k⟩
  · constructor
    · rw [hw, List.nodup_append]
      refine ⟨hinv.1, List.nodup_singleton _, fun a ha hb => ?_⟩
      rw [List.mem_singleton] at hb
      subst hb
      exact hnf ((hinv.2 _).mpr ha)
    · intro k
      rw [hf, hw, List.mem_cons, List.mem_append, List.mem_singleton,
        hinv.2 k]
      tauto

theorem processFile_flagged_mono (st st' : ParseState) (f : BankFile)
    (h : processFile st f = .ok st') : ∀ k ∈ st.flagged, k ∈ st'.flagged := by
  intro k hk
  rcases processFile_ok_cases st st' f h with ⟨hf, _⟩ | ⟨_, _, _, hf, _⟩
  · rw [hf]; exact hk
  · rw [hf]; exact List.mem_cons_of_mem _ hk

theorem processFile_unknown_flagged (st st' : ParseState) (f : BankFile)
    (hk : bankKind f.name ∉ knownKinds) (h : processFile st f = .ok st') :
    bankKind f.name ∈ st'.flagged := by
  rw [processFile_unknown st f hk] at h
  by_cases hf : bankKind f.name ∈ st.flagged
  · rw [if_pos hf] at h; cases h; exact hf
  · rw [if_neg hf] at h; cases h; exact List.mem_cons_self _ _

theorem processFiles_loginv :
    ∀ (files : List BankFile) (st st' : ParseState), LogInv st →
      processFiles st files = .ok st' → LogInv st' := by
  intro files
  induction files with
  | nil => intro st st' hinv h; cases h; exact hinv
  | cons f rest ih =>
    intro st st' hinv h
    rw [processFiles] at h
    cases hstep : processFile st f with
    | error e => rw [hstep] at h; cases h
    | ok st1 =>
      rw [hstep] at h
      exact ih st1 st' (processFile_loginv st st1 f hstep hinv) h

theorem processFiles_flagged_mono :
    ∀ (files : List BankFile) (st st' : ParseState),
      processFiles st files = .ok st' → ∀ k ∈ st.flagged, k ∈ st'.flagged := by
  intro files
  induction files with
  | nil => intro st st' h k hk; cases h; exact hk
  | cons f rest ih =>
    intro st st' h k hk
    rw [processFiles] at h
    cases hstep : processFile st f with
    | error e => rw [hstep] at h; cases h
    | ok st1 =>
      rw [hstep] at h
      exact ih st1 st' h k (processFile_flagged_mono st st1 f hstep k hk)

theorem processFiles_unknown_flagged :
    ∀ (files : List BankFile) (st st' : ParseState) (f : BankFile),
      f ∈ files → bankKind f.name ∉ knownKinds →
      processFiles st files = .ok st' → bankKind f.name ∈ st'.flagged := by
  intro files
  induction files with
  | nil => intro st st' f hf; cases hf
  | cons f0 rest ih =>
    intro st st' f hf hk h
    rw [processFiles] at h
    cases hstep : processFile st f0 with
    | error e => rw [hstep] at h; cases h
    | ok st1 =>
      rw [hstep] at h
      rcases List.mem_cons.mp hf with rfl | hf'
      · exact processFiles_flagged_mono rest st1 st' h _
          (processFile_unknown_flagged st st1 f hk hstep)
      · exact ih st1 st' f hf' hk h

theorem processFiles_dict_filter :
    ∀ (files : List BankFile) (st1 st2 : ParseState), st1.dict = st2.dict →
      (processFiles st1 files).map ParseState.dict
        = (processFiles st2 (files.filter fun f =>
            decide (bankKind f.name ∈ knownKinds))).map ParseState.dict := by
  intro files
  induction files with
  | nil => intro st1 st2 hd; simp [processFiles, Except.map, hd]
  | cons f rest ih =>
    intro st1 st2 hd
    by_cases hk : bankKind f.name ∈ knownKinds
    · rw [List.filter_cons_of_pos (by simpa using hk)]
      have e1 := processFile_known_eq st1 f hk
      have e2 := processFile_known_eq st2 f hk
      rw [hd] at e1
      rw [processFiles, processFiles]
      cases hin : processFile ⟨st2.dict, [], []⟩ f with
      | error e =>
        rw [hin] at e1 e2
        simp only [Except.map] at e1 e2
        rw [e1, e2]
      | ok stIn =>
        rw [hin] at e1 e2
        simp only [Except.map] at e1 e2
        rw [e1, e2]
        exact ih _ _ rfl
    · rw [List.filter_cons_of_neg (by simpa using hk)]
      rw [processFiles, processFile_unknown st1 f hk]
      by_cases hf : bankKind f.name ∈ st1.flagged
      · rw [if_pos hf]
        exact ih st1 st2 hd
      · rw [if_neg hf]
        exact ih _ st2 hd

theorem importFiles_filter_fst (files : List BankFile) :
    (importFiles files).map Prod.fst
      = (importFiles (files.filter fun f =>
          decide (bankKind f.name ∈ knownKinds))).map Prod.fst := by
  have A := processFiles_dict_filter files initParseState initParseState rfl
  unfold importFiles gatherFiles
  cases hg : processFiles initParseState files with
  | error e =>
    cases hg' : processFiles initParseState
        (files.filter fun f => decide (bankKind f.name ∈ knownKinds)) with
    | error e' => simp [Except.map]
    | ok st' => rw [hg, hg'] at A; simp [Except.map] at A
  | ok st =>
    cases hg' : processFiles initParseState
        (files.filter fun f => decide (bankKind f.name ∈ knownKinds)) with
    | error e' => rw [hg, hg'] at A; simp [Except.map] at A
    | ok st' =>
      rw [hg, hg'] at A
      simp only [Except.map, Except.ok.injEq] at A
      simp only [Except.map, Except.ok.injEq]
      rw [A]

/-- C6: bank files whose kind is not one of the five recognized kinds never
make the import fail and contribute no rows: the parsed collections (and
success) are the same as if those files were not present; on success each
kind is warned about at most once, and each unknown kind actually present is
warned about; a list consisting only of unknown-kind files imports
successfully with all collections empty. -/
theorem C6_unknown_kind_tolerance :
    (∀ files : List BankFile,
      (importFiles files).map Prod.fst
        = (importFiles (files.filter fun f =>
            decide (bankKind f.name ∈ knownKinds))).map Prod.fst)
    ∧ (∀ (files : List BankFile) (d : ImportedDictData) (w : List String),
        importFiles files = .ok (d, w) → ∀ k, w.count k ≤ 1)
    ∧ (∀ (files : List BankFile) (d : ImportedDictData) (w : List String)
        (f : BankFile), importFiles files = .ok (d, w) → f ∈ files →
        bankKind f.name ∉ knownKinds → bankKind f.name ∈ w)
    ∧ (∀ files : List BankFile,
        (∀ f ∈ files, bankKind f.name ∉ knownKinds) →
        ∃ w, importFiles files = .ok (⟨[], [], [], [], []⟩, w)) := by
  have hinv0 : LogInv initParseState := ⟨List.nodup_nil, fun k => Iff.rfl⟩
  have hmain : ∀ (files : List BankFile) (d : ImportedDictData)
      (w : List String), importFiles files = .ok (d, w) →
      ∃ st : ParseState, processFiles initParseState files = .ok st
        ∧ w = st.warnings ∧ LogInv st := by
    intro files d w h
    unfold importFiles gatherFiles at h
    cases hg : processFiles initParseState files with
    | error e => rw [hg] at h; cases h
    | ok st =>
      rw [hg] at h
      simp only [Except.map, Except.ok.injEq, Prod.mk.injEq] at h
      exact ⟨st, rfl, h.2.symm,
        processFiles_loginv files initParseState st hinv0 hg⟩
  refine ⟨importFiles_filter_fst, ?_, ?_, ?_⟩
  · intro files d w h k
    obtain ⟨st, -, hw, hinv⟩ := hmain files d w h
    rw [hw]
    exact List.nodup_iff_count_le_one.mp hinv.1 k
  · intro files d w f h hf hk
    obtain ⟨st, hg, hw, hinv⟩ := hmain files d w h
    rw [hw]
    exact (hinv.2 _).mp
      (processFiles_unknown_flagged files initParseState st f hf hk hg)
  · intro files hall
    have hfil : files.filter (fun f => decide (bankKind f.name ∈ knownKinds))
        = [] :=
      List.filter_eq_nil_iff.mpr fun f hf => by simpa using hall f hf
    have h1 := importFiles_filter_fst files
    rw [hfil] at h1
    have h0 : importFiles ([] : List BankFile)
        = .ok (⟨[], [], [], [], []⟩, []) := rfl
    rw [h0] at h1
    cases him : importFiles files with
    | error e => rw [him] at h1; simp [Except.map] at h1
    | ok p =>
      obtain ⟨d0, w0⟩ := p
      rw [him] at h1
      simp only [Except.map, Except.ok.injEq] at h1
      refine ⟨w0, ?_⟩
      rw [h1]

/-- Witness for C6: a batch with two `foo`-kind files (one warning only) and
one term bank; and an all-unknown batch importing to empty collections. -/
theorem C6_unknown_kind_tolerance_witness :
    importFiles [⟨"foo_bank.json", .str "garbage"⟩, ⟨"foo_bank_2.json", .null⟩,
        ⟨"term_bank.json", .arr [seqRow 1]⟩]
      = .ok (⟨[{ expression := "x", reading := "y", definitionTags := [],
                 rules := [], score := 1, glossary := [], sequence := 1,
                 termTags := [] }], [], [], [], []⟩, ["foo"])
    ∧ (∀ k, List.count k ["foo"] ≤ 1)
    ∧ "foo" ∈ ["foo"]
    ∧ (∃ w, importFiles [⟨"foo_bank.json", .str "garbage"⟩]
        = .ok (⟨[], [], [], [], []⟩, w)) := by
  refine ⟨rfl, ?_, ?_, ?_⟩
  · exact fun k => C6_unknown_kind_tolerance.2.1
      [⟨"foo_bank.json", .str "garbage"⟩, ⟨"foo_bank_2.json", .null⟩,
       ⟨"term_bank.json", .arr [seqRow 1]⟩] _ _ rfl k
  · exact C6_unknown_kind_tolerance.2.2.1
      [⟨"foo_bank.json", .str "garbage"⟩, ⟨"foo_bank_2.json", .null⟩,
       ⟨"term_bank.json", .arr [seqRow 1]⟩] _ _
      ⟨"foo_bank.json", .str "garbage"⟩ rfl (List.mem_cons_self _ _)
      (by decide)
  · exact C6_unknown_kind_tolerance.2.2.2 [⟨"foo_bank.json", .str "garbage"⟩]
      fun f hf => by rw [List.mem_singleton] at hf; subst hf; decide
